import Mathlib

/-!
Verification development for the typegoose metadata-to-schema compilation
engine.  The repository ships the option/type declaration surface
(`src/types.ts`) together with model fixtures; the compilation logic itself
(option normalizer, type resolver, field compiler, class compiler, model
factory) is specified in `spec.md` and is embedded here as executable Lean
definitions.  Wherever a definition models behaviour whose implementation
file is not part of the source tree, its doc comment says so explicitly.
-/

set_option autoImplicit false

namespace Typegoose

/-- Primitive storage types of the driver (mongoose schema types referenced
by `RefSchemaType` in `src/types.ts`: String, Number, Buffer, ObjectId),
plus boolean and the catch-all mixed type. -/
inductive PrimType where
  | pstring
  | pnumber
  | pboolean
  | pobjectid
  | pbuffer
  | pmixed
deriving DecidableEq, Repr

/-- Declared-type hint: either a primitive or a class, as observed by the
external reflection capability (`observe(class, field)` in the spec). -/
inductive TypeRef where
  | prim (p : PrimType)
  | cls (n : String)
deriving DecidableEq, Repr

/-- Key type stored by a reference field, from `RefSchemaType` in
`src/types.ts` (lines 208-211): ObjectId, String, Number or Buffer. -/
inductive RefKeyType where
  | objectId
  | keyString
  | keyNumber
  | keyBuffer
deriving DecidableEq, Repr

/-- Runtime/option values: document literals, nested mappings, type tokens
(such as the `of: String` or `itemsRef: SomeClass` annotation values) and
opaque functions (getters, setters, validators) identified by a tag. -/
inductive Value where
  | vnull
  | vbool (b : Bool)
  | vnum (n : Int)
  | vstr (s : String)
  | varr (elems : List Value)
  | vmap (entries : List (String × Value))
  | vtype (t : TypeRef)
  | vfun (tag : Nat)

/-- Raw options of one field: an ordered association list from option name
to value, as in `BasePropOptions` / `ArrayPropOptions` / `MapPropOptions`
of `src/types.ts`. -/
abbrev Options := List (String × Value)

/-- First value bound to a key in an association list. -/
def getOpt : Options → String → Option Value
  | [], _ => none
  | (k, v) :: rest, key => if k = key then some v else getOpt rest key

/-- Key is present in the raw options. -/
def hasKey (opts : Options) (key : String) : Bool :=
  (getOpt opts key).isSome

/-- Keys of an association list, in order. -/
def keysOf {α : Type} (l : List (String × α)) : List String :=
  l.map Prod.fst

/-- Which decorator introduced the field: `prop`, `arrayProp` or `mapProp`. -/
inductive PropKind where
  | plain
  | array
  | map
deriving DecidableEq, Repr

/-- Metadata of one annotated field: decorator kind, the raw options given
to the decorator, and the declared type observed by reflection (spec §3:
"ordered list of (field name, raw annotation options, declared-type hint)"). -/
structure FieldMeta where
  kind : PropKind
  rawOptions : Options
  declared : Option TypeRef

/-- Metadata of one annotated class (spec §3: field list in declaration
order, class-level options, optional parent class for inheritance). -/
structure ClassMeta where
  name : String
  parent : Option String
  fields : List (String × FieldMeta)
  classOptions : Options

/-- Lookup from class name to its metadata (the class-metadata-lookup of
the spec's `resolveType` contract). -/
abbrev Lookup := String → Option ClassMeta

/-- Compilation-time errors, from the spec's error taxonomy (§7) together
with the asymmetric get/set transform error of §4.3. -/
inductive CompileError where
  | invalidOptions
  | unresolvedType
  | unknownReferenceTarget
  | cyclicNesting
  | duplicateDiscriminatorValue
  | asymmetricTransform
deriving DecidableEq, Repr

/-! ## Option Normalizer (spec §4.1)

Modelled from the spec: the option-splitting implementation (the function
producing `ImapArrayOptions` of `src/types.ts`, lines 281-284) is not part
of the source tree; only its input/output option interfaces are.  The split
below follows §4.1 word for word: element-level validation options are
inner, everything else (unknown keys included) is outer, and an explicit
`innerOptions`/`outerOptions` escape hatch always wins. -/

/-- Result of splitting container-field options (shape of
`ImapArrayOptions` in `src/types.ts`). -/
structure SplitOptions where
  outer : Options
  inner : Options

/-- Option keys that belong to each element of an array (spec §4.1:
validators, enum, match, min/max, minlength/maxlength, ref/refPath/refType). -/
def arrayInnerKeys : List String :=
  ["validate", "enum", "match", "min", "max", "minlength", "maxlength",
   "ref", "refPath", "refType"]

/-- Array option keys consumed by type resolution or by the escape hatches
themselves (`ArrayPropOptions` in `src/types.ts`, lines 224-255); they are
not subject to the outer/inner split. -/
def consumedArrayKeys : List String :=
  ["items", "itemsRef", "itemsRefPath", "itemsRefType",
   "innerOptions", "outerOptions"]

/-- Explicit override mapping provided under the given escape-hatch key,
empty when absent or not a mapping. -/
def explicitMap (raw : Options) (key : String) : Options :=
  match getOpt raw key with
  | some (Value.vmap m) => m
  | _ => []

/-- Raw array options subject to automatic classification: everything not
consumed by type resolution and not claimed by an explicit
`outerOptions`/`innerOptions` override. -/
def autoBase (raw : Options) : Options :=
  raw.filter (fun kv =>
    decide (kv.1 ∉ consumedArrayKeys) &&
    decide (kv.1 ∉ keysOf (explicitMap raw "outerOptions")) &&
    decide (kv.1 ∉ keysOf (explicitMap raw "innerOptions")))

/-- Modelled from the spec: `normalize(Array, rawOptions)` of §4.1.
Automatic classification sends element-level validation keys inner and
every other key (unknown ones included) outer; keys claimed by an explicit
`outerOptions`/`innerOptions` override are removed from the automatic split
and the override entries are merged on top. -/
def normalizeArray (raw : Options) : SplitOptions :=
  { outer := (autoBase raw).filter (fun kv => decide (kv.1 ∉ arrayInnerKeys))
      ++ explicitMap raw "outerOptions"
    inner := (autoBase raw).filter (fun kv => decide (kv.1 ∈ arrayInnerKeys))
      ++ explicitMap raw "innerOptions" }

/-- Option keys that move to the value descriptor of a map (spec §4.1:
"validation rules tied to the value type"). -/
def mapInnerKeys : List String :=
  ["validate", "enum", "match", "min", "max", "minlength", "maxlength"]

/-- Map option keys consumed by type resolution (`MapPropOptions.of` of
`src/types.ts`, lines 257-262). -/
def consumedMapKeys : List String := ["of"]

/-- Modelled from the spec: `normalize(Map, rawOptions)` of §4.1.  Options
pass through as outer except value-type validation rules, which move to the
inner (value-descriptor) options. -/
def normalizeMap (raw : Options) : SplitOptions :=
  let base := raw.filter (fun kv => decide (kv.1 ∉ consumedMapKeys))
  { outer := base.filter (fun kv => decide (kv.1 ∉ mapInnerKeys))
    inner := base.filter (fun kv => decide (kv.1 ∈ mapInnerKeys)) }

/-! ## Type Resolver (spec §4.2) -/

/-- Resolved effective storage type of a field (for containers: of the
element). -/
inductive ResolvedType where
  | prim (p : PrimType)
  | cls (n : String)
  | reference (target : String) (keyType : RefKeyType)
deriving DecidableEq, Repr

/-- Interpretation of a type-valued option (`type`, `items`, `of`). -/
def valueToType : Value → Option ResolvedType
  | Value.vtype (TypeRef.prim p) => some (ResolvedType.prim p)
  | Value.vtype (TypeRef.cls n) => some (ResolvedType.cls n)
  | _ => none

/-- Target class named by a `ref`/`itemsRef` option value. -/
def refTarget : Option Value → Option String
  | some (Value.vtype (TypeRef.cls n)) => some n
  | some (Value.vstr n) => some n
  | _ => none

/-- Key type requested by a `refType`/`itemsRefType` option; ObjectId when
absent, following the default type parameter of `Ref` in `src/types.ts`
(line 217: `Ref<R, T extends RefType = mongoose.Types.ObjectId>`). -/
def refKeyOf : Option Value → RefKeyType
  | some (Value.vtype (TypeRef.prim PrimType.pnumber)) => RefKeyType.keyNumber
  | some (Value.vtype (TypeRef.prim PrimType.pstring)) => RefKeyType.keyString
  | some (Value.vtype (TypeRef.prim PrimType.pbuffer)) => RefKeyType.keyBuffer
  | _ => RefKeyType.objectId

/-- Explicit type option of a field: `type` for plain props, `items` for
arrays, `of` for maps (spec §4.2 step 1). -/
def explicitType (fm : FieldMeta) : Option ResolvedType :=
  match fm.kind with
  | PropKind.plain => (getOpt fm.rawOptions "type").bind valueToType
  | PropKind.array => (getOpt fm.rawOptions "items").bind valueToType
  | PropKind.map => (getOpt fm.rawOptions "of").bind valueToType

/-- Reference-style resolution (spec §4.2 step 2): `ref` for plain props,
`itemsRef` for arrays, each paired with its key-type option. -/
def refResolve (fm : FieldMeta) : Option ResolvedType :=
  match fm.kind with
  | PropKind.array =>
    (refTarget (getOpt fm.rawOptions "itemsRef")).map
      (fun t => ResolvedType.reference t (refKeyOf (getOpt fm.rawOptions "itemsRefType")))
  | _ =>
    (refTarget (getOpt fm.rawOptions "ref")).map
      (fun t => ResolvedType.reference t (refKeyOf (getOpt fm.rawOptions "refType")))

/-- Ambient declared type observed by the external reflection capability
(spec §4.2 step 3). -/
def declaredType (fm : FieldMeta) : Option ResolvedType :=
  fm.declared.map (fun t =>
    match t with
    | TypeRef.prim p => ResolvedType.prim p
    | TypeRef.cls n => ResolvedType.cls n)

/-- Type inferred from a literal default value's own type (spec §4.2
step 4). -/
def inferDefault (opts : Options) : Option ResolvedType :=
  match getOpt opts "default" with
  | some (Value.vstr _) => some (ResolvedType.prim PrimType.pstring)
  | some (Value.vnum _) => some (ResolvedType.prim PrimType.pnumber)
  | some (Value.vbool _) => some (ResolvedType.prim PrimType.pboolean)
  | _ => none

/-- Modelled from the spec: `resolveType` of §4.2 (the resolver
implementation is not in the source tree).  First match wins: explicit type
option, then ref-style resolution, then the ambient declared type, then
inference from a literal default; otherwise `UnresolvedTypeError`. -/
def resolveType (fm : FieldMeta) : Except CompileError ResolvedType :=
  match explicitType fm with
  | some t => Except.ok t
  | none =>
    match refResolve fm with
    | some r => Except.ok r
    | none =>
      match declaredType fm with
      | some t => Except.ok t
      | none =>
        match inferDefault fm.rawOptions with
        | some t => Except.ok t
        | none => Except.error CompileError.unresolvedType

/-! ## Field descriptors (spec §3) -/

/-- Validator/transform information of one scalar descriptor. -/
structure ScalarInfo where
  primType : PrimType
  required : Bool
  enumSet : Option (List String)
  hasTransform : Bool

/-- Field descriptor: the tagged variant of spec §3 (`Scalar`, `Nested`,
`Array`, `Map`, `Reference`); container variants hold a full element
descriptor, enabling arbitrary nesting depth. -/
inductive FieldDescriptor where
  | scalar (info : ScalarInfo)
  | nested (fields : List (String × FieldDescriptor))
  | array (elem : FieldDescriptor) (outer : Options)
  | map (elem : FieldDescriptor) (outer : Options)
  | reference (target : String) (keyType : RefKeyType)

/-- Compiled Class Descriptor (spec §3): ordered mapping from field name to
descriptor plus class-level options. -/
structure CompiledClass where
  name : String
  fields : List (String × FieldDescriptor)
  classOptions : Options

/-- Required flag carried by a `required` option value. -/
def requiredOf (opts : Options) : Bool :=
  match getOpt opts "required" with
  | some (Value.vbool b) => b
  | some _ => true
  | none => false

/-- Enumerated string set named by an `enum` option value.  A list-style
enum contributes its string members; a mapping-style (enum-like) object
contributes the set of its values, not its keys (spec §4.3). -/
def enumValsOf : Value → List String
  | Value.varr xs => xs.filterMap (fun v =>
      match v with
      | Value.vstr s => some s
      | _ => none)
  | Value.vmap m => m.filterMap (fun kv =>
      match kv.2 with
      | Value.vstr s => some s
      | _ => none)
  | _ => []

/-- Enum validator set of the raw options, when an `enum` option is given. -/
def enumSetOf (opts : Options) : Option (List String) :=
  (getOpt opts "enum").map enumValsOf

/-- Runtime enum validator (spec §4.3): accepts exactly the strings of the
enumerated set and rejects every other value, null included. -/
def enumValidate (allowed : List String) : Value → Bool
  | Value.vstr s => allowed.contains s
  | _ => false

/-- Scalar descriptor assembled from a primitive type and the options that
apply to the value (raw options for plain fields, inner options for
container elements). -/
def mkScalar (p : PrimType) (opts : Options) : ScalarInfo :=
  { primType := p
    required := requiredOf opts
    enumSet := enumSetOf opts
    hasTransform := hasKey opts "get" && hasKey opts "set" }

/-! ## Field and Class Compiler (spec §4.3, §4.4)

Modelled from the spec: `compileField` and `compileClass` have no
implementation under the source tree; the definitions below follow §4.3 and
§4.4.  Recursion into nested classes is fuel-bounded (the fuel is an
embedding artifact; every theorem quantifies over or instantiates it), and
a visited set of class names makes cyclic nesting fail fast with
`CyclicNestingError`. -/

/-- Fields compiled for a class: the ancestor chain is walked root to self
(spec §4.4); a field redeclared by the class replaces the ancestor's entry
(last-writer-wins). -/
def collectFields (L : Lookup) : Nat → ClassMeta → List (String × FieldMeta)
  | 0, cm => cm.fields
  | fuel + 1, cm =>
    match cm.parent with
    | none => cm.fields
    | some p =>
      match L p with
      | none => cm.fields
      | some pm =>
        (collectFields L fuel pm).filter
          (fun nf => !((keysOf cm.fields).contains nf.1)) ++ cm.fields

/-- Element/base descriptor of a resolved type; nested classes recurse into
the class compiler through `recur` (spec §4.2: nested classes produce a
`Nested` descriptor). -/
def buildElem (L : Lookup) (recur : ClassMeta → Except CompileError CompiledClass)
    (rt : ResolvedType) (opts : Options) : Except CompileError FieldDescriptor :=
  match rt with
  | ResolvedType.prim p => Except.ok (FieldDescriptor.scalar (mkScalar p opts))
  | ResolvedType.reference t k => Except.ok (FieldDescriptor.reference t k)
  | ResolvedType.cls m =>
    match L m with
    | none => Except.error CompileError.unresolvedType
    | some mm =>
      match recur mm with
      | Except.error e => Except.error e
      | Except.ok cc => Except.ok (FieldDescriptor.nested cc.fields)

/-- Modelled from the spec: `compileField` of §4.3 (no implementation under
the source tree).  Checks the get/set transform pair, resolves the type,
and dispatches on the container kind, normalizing container options and
compiling the element from the inner options. -/
def compileField (L : Lookup) (recur : ClassMeta → Except CompileError CompiledClass)
    (fm : FieldMeta) : Except CompileError FieldDescriptor :=
  if hasKey fm.rawOptions "get" = hasKey fm.rawOptions "set" then
    match resolveType fm with
    | Except.error e => Except.error e
    | Except.ok rt =>
      match fm.kind with
      | PropKind.plain => buildElem L recur rt fm.rawOptions
      | PropKind.array =>
        match buildElem L recur rt (normalizeArray fm.rawOptions).inner with
        | Except.error e => Except.error e
        | Except.ok elemDesc =>
          Except.ok (FieldDescriptor.array elemDesc (normalizeArray fm.rawOptions).outer)
      | PropKind.map =>
        match buildElem L recur rt (normalizeMap fm.rawOptions).inner with
        | Except.error e => Except.error e
        | Except.ok elemDesc =>
          Except.ok (FieldDescriptor.map elemDesc (normalizeMap fm.rawOptions).outer)
  else Except.error CompileError.asymmetricTransform

/-- Compiles an ordered field list, failing fast on the first field error
(spec §7: no partial descriptors). -/
def compileFields (L : Lookup) (recur : ClassMeta → Except CompileError CompiledClass) :
    List (String × FieldMeta) → Except CompileError (List (String × FieldDescriptor))
  | [] => Except.ok []
  | (n, fm) :: rest =>
    match compileField L recur fm with
    | Except.error e => Except.error e
    | Except.ok d =>
      match compileFields L recur rest with
      | Except.error e => Except.error e
      | Except.ok ds => Except.ok ((n, d) :: ds)

/-- Modelled from the spec: `compileClass` of §4.4 (no implementation under
the source tree).  A class already on the visited chain is a nested cycle
and fails fast with `CyclicNestingError`; otherwise the collected fields
are compiled in declaration order. -/
def compileClass (L : Lookup) : Nat → List String → ClassMeta → Except CompileError CompiledClass
  | 0, _, _ => Except.error CompileError.cyclicNesting
  | fuel + 1, visited, cm =>
    if visited.contains cm.name then Except.error CompileError.cyclicNesting
    else
      match compileFields L (compileClass L fuel (cm.name :: visited)) (collectFields L fuel cm) with
      | Except.error e => Except.error e
      | Except.ok fds => Except.ok ⟨cm.name, fds, cm.classOptions⟩

/-! ## Driver sink (spec §6)

Modelled from the spec: the external driver accepts a compiled descriptor
and returns a document factory bound to it.  Document creation validates a
document value against the descriptor shape and hands back the document
unchanged. -/

/-- Does a value inhabit a primitive storage type?  ObjectId and Buffer
values are carried as strings in this embedding; `pmixed` accepts
anything. -/
def matchesPrim : PrimType → Value → Bool
  | PrimType.pstring, Value.vstr _ => true
  | PrimType.pnumber, Value.vnum _ => true
  | PrimType.pboolean, Value.vbool _ => true
  | PrimType.pobjectid, Value.vstr _ => true
  | PrimType.pbuffer, Value.vstr _ => true
  | PrimType.pmixed, _ => true
  | _, _ => false

/-- Requiredness of a descriptor, for missing-field checks: scalars carry
their flag, containers read it from their outer options (`required`
defaults to false, `src/types.ts` line 51). -/
def descRequired : FieldDescriptor → Bool
  | FieldDescriptor.scalar info => info.required
  | FieldDescriptor.array _ outer => requiredOf outer
  | FieldDescriptor.map _ outer => requiredOf outer
  | _ => false

/-- Scalar runtime validation: the enum validator when an enum set is
wired, the primitive type check otherwise. -/
def scalarValidate (info : ScalarInfo) (v : Value) : Bool :=
  match info.enumSet with
  | some allowed => enumValidate allowed v
  | none => matchesPrim info.primType v

/-- Does a document value conform to a field descriptor?  Fuel bounds the
recursion depth through nested descriptors. -/
def matchesDesc : Nat → FieldDescriptor → Value → Bool
  | 0, _, _ => false
  | _ + 1, FieldDescriptor.scalar info, v => scalarValidate info v
  | fuel + 1, FieldDescriptor.nested fs, Value.vmap entries =>
    fs.all (fun nd =>
      match getOpt entries nd.1 with
      | some v => matchesDesc fuel nd.2 v
      | none => !(descRequired nd.2))
  | fuel + 1, FieldDescriptor.array elemDesc _, Value.varr xs =>
    xs.all (fun v => matchesDesc fuel elemDesc v)
  | fuel + 1, FieldDescriptor.map elemDesc _, Value.vmap entries =>
    entries.all (fun kv => matchesDesc fuel elemDesc kv.2)
  | _ + 1, FieldDescriptor.reference _ _, Value.vstr _ => true
  | _ + 1, _, _ => false

/-- Modelled from the spec: document creation through the driver sink
(§6, §8 end-to-end scenario).  A document valid for the compiled class
round-trips unchanged; an invalid one is rejected. -/
def createDoc (fuel : Nat) (cc : CompiledClass) (doc : Value) : Option Value :=
  match doc with
  | Value.vmap entries =>
    if cc.fields.all (fun nd =>
        match getOpt entries nd.1 with
        | some v => matchesDesc fuel nd.2 v
        | none => !(descRequired nd.2)) then
      some doc
    else none
  | _ => none

/-! ## Model Factory (spec §4.5)

Modelled from the spec: `buildHandle`/`getModelForClass` (called by the
fixtures, implementation not under the source tree).  The registry is the
explicit connection-scoped registry of §9: entries keyed by (class name,
effective collection name, connection), plus a count of schema
registrations performed against the driver. -/

/-- Process-wide model registry state. -/
structure Registry where
  entries : List ((String × String × String) × Nat)
  regCount : Nat
  nextId : Nat

/-- Idempotence key of a handle request: class name, effective collection
name (the requested one, or a name derived from the class), connection. -/
def handleKey (className : String) (collection : Option String) (conn : String) :
    String × String × String :=
  (className, collection.getD className, conn)

/-- First handle registered under a key. -/
def findEntry : List ((String × String × String) × Nat) → (String × String × String) → Option Nat
  | [], _ => none
  | (k, h) :: rest, key => if k = key then some h else findEntry rest key

/-- Modelled from the spec: `buildHandle` of §4.5.  Re-requesting a handle
for a key already registered returns the existing handle without a second
driver registration; a fresh key registers the schema once and records the
new handle. -/
def buildHandle (reg : Registry) (className : String) (collection : Option String)
    (conn : String) : Registry × Nat :=
  match findEntry reg.entries (handleKey className collection conn) with
  | some h => (reg, h)
  | none =>
    ({ entries := (handleKey className collection conn, reg.nextId) :: reg.entries
       regCount := reg.regCount + 1
       nextId := reg.nextId + 1 }, reg.nextId)

/-! ## Fixture metadata

Class metadata of the model fixtures, as the decorators of
`test/models/internetUser.ts` and the nested-person fixture record it.  The
spec's end-to-end scenario (§8) treats `Address{street: string}` as a class
with the one field `street`; its declared types are the ones reflection
observes. -/

/-- Metadata of `AddressNested` with its `street: string` field, per the
spec's §8 scenario shape `Address{street: string}`. -/
def addressMeta : ClassMeta :=
  { name := "AddressNested"
    parent := none
    fields := [("street", ⟨PropKind.plain, [], some (TypeRef.prim PrimType.pstring)⟩)]
    classOptions := [] }

/-- Metadata of `PersonNested` (nested-person fixture): `name: string`,
`address: AddressNested`, `moreAddresses: AddressNested[]`. -/
def personMeta : ClassMeta :=
  { name := "PersonNested"
    parent := none
    fields :=
      [("name", ⟨PropKind.plain, [], some (TypeRef.prim PrimType.pstring)⟩),
       ("address", ⟨PropKind.plain, [], some (TypeRef.cls "AddressNested")⟩),
       ("moreAddresses", ⟨PropKind.array, [], some (TypeRef.cls "AddressNested")⟩)]
    classOptions := [] }

/-- Metadata of `SideNote` (`test/models/internetUser.ts` lines 3-9):
`content: string` and `link?: string`. -/
def sideNoteMeta : ClassMeta :=
  { name := "SideNote"
    parent := none
    fields :=
      [("content", ⟨PropKind.plain, [], some (TypeRef.prim PrimType.pstring)⟩),
       ("link", ⟨PropKind.plain, [], some (TypeRef.prim PrimType.pstring)⟩)]
    classOptions := [] }

/-- The `ProjectValue` enum of `test/models/internetUser.ts` as a
mapping-style enum object: keys WORKING/UNDERDEVELOPMENT/BROKEN, values
"working"/"underdevelopment"/"broken". -/
def projectValueEnum : Value :=
  Value.vmap
    [("WORKING", Value.vstr "working"),
     ("UNDERDEVELOPMENT", Value.vstr "underdevelopment"),
     ("BROKEN", Value.vstr "broken")]

/-- Metadata of `InternetUser` (`test/models/internetUser.ts` lines 17-26):
three `mapProp` fields with `of` options, `projects` also carrying the
mapping-style enum. -/
def internetUserMeta : ClassMeta :=
  { name := "InternetUser"
    parent := none
    fields :=
      [("socialNetworks",
        ⟨PropKind.map,
         [("of", Value.vtype (TypeRef.prim PrimType.pstring)),
          ("mapDefault", Value.vmap [])], none⟩),
       ("sideNotes",
        ⟨PropKind.map, [("of", Value.vtype (TypeRef.cls "SideNote"))], none⟩),
       ("projects",
        ⟨PropKind.map,
         [("of", Value.vtype (TypeRef.prim PrimType.pstring)),
          ("enum", projectValueEnum)], none⟩)]
    classOptions := [] }

/-- Class-metadata lookup over the fixture classes. -/
def fixtureLookup : Lookup := fun n =>
  if n = "AddressNested" then some addressMeta
  else if n = "PersonNested" then some personMeta
  else if n = "SideNote" then some sideNoteMeta
  else if n = "InternetUser" then some internetUserMeta
  else none

/-- The document of the spec's §8 end-to-end scenario:
`{name: "A", address: {street: "X"}, moreAddresses: []}`. -/
def personDoc : Value :=
  Value.vmap
    [("name", Value.vstr "A"),
     ("address", Value.vmap [("street", Value.vstr "X")]),
     ("moreAddresses", Value.varr [])]

/-- Expected compiled descriptor of `PersonNested` (spec §8): `name` as
Scalar/string, `address` as Nested over {street}, `moreAddresses` as Array
of that same Nested shape. -/
def personDescriptor : CompiledClass :=
  { name := "PersonNested"
    fields :=
      [("name", FieldDescriptor.scalar ⟨PrimType.pstring, false, none, false⟩),
       ("address",
        FieldDescriptor.nested
          [("street", FieldDescriptor.scalar ⟨PrimType.pstring, false, none, false⟩)]),
       ("moreAddresses",
        FieldDescriptor.array
          (FieldDescriptor.nested
            [("street", FieldDescriptor.scalar ⟨PrimType.pstring, false, none, false⟩)])
          [])]
    classOptions := [] }

/-! ## Nested-embedding relation (for cyclic-nesting reasoning) -/

/-- Class `a` has an annotated field whose resolved storage type is the
class `b` embedded as a nested (non-reference) document. -/
def NestedEdge (L : Lookup) (a b : String) : Prop :=
  ∃ cm n fm, L a = some cm ∧ (n, fm) ∈ cm.fields ∧
    resolveType fm = Except.ok (ResolvedType.cls b)

/-- Nonempty chain of nested embeddings from `a` to `b`. -/
inductive NestedPath (L : Lookup) : String → String → Prop where
  | single {a b : String} : NestedEdge L a b → NestedPath L a b
  | cons {a m b : String} : NestedEdge L a m → NestedPath L m b → NestedPath L a b

/-- The lookup names classes consistently: metadata registered under a name
carries that name. -/
def CoherentLookup (L : Lookup) : Prop :=
  ∀ n cm, L n = some cm → cm.name = n

/-- Class metadata that directly embeds itself as a nested document. -/
def selfNestMeta : ClassMeta :=
  { name := "Selfish"
    parent := none
    fields := [("me", ⟨PropKind.plain, [], some (TypeRef.cls "Selfish")⟩)]
    classOptions := [] }

/-- Lookup holding only the directly self-nesting class. -/
def selfNestLookup : Lookup := fun n =>
  if n = "Selfish" then some selfNestMeta else none

/-! ## Helper lemmas -/

/-- Key absent from an association list yields no binding. -/
theorem getOpt_eq_none_of_not_mem (l : Options) (k : String) (h : k ∉ keysOf l) :
    getOpt l k = none := by
  induction l with
  | nil => rfl
  | cons kv rest ih =>
    simp only [keysOf, List.map_cons, List.mem_cons, not_or] at h
    simp only [getOpt]
    rw [if_neg (fun hh : kv.1 = k => h.1 hh.symm)]
    exact ih (by simpa [keysOf] using h.2)

/-- Lookup in a concatenation skips a prefix that does not bind the key. -/
theorem getOpt_append_of_not_mem (l₁ l₂ : Options) (k : String) (h : k ∉ keysOf l₁) :
    getOpt (l₁ ++ l₂) k = getOpt l₂ k := by
  induction l₁ with
  | nil => rfl
  | cons kv rest ih =>
    simp only [keysOf, List.map_cons, List.mem_cons, not_or] at h
    simp only [List.cons_append, getOpt]
    rw [if_neg (fun hh : kv.1 = k => h.1 hh.symm)]
    exact ih (by simpa [keysOf] using h.2)

/-- Membership among the keys of a concatenation. -/
theorem mem_keys_append {α : Type} (l₁ l₂ : List (String × α)) (k : String) :
    k ∈ keysOf (l₁ ++ l₂) ↔ k ∈ keysOf l₁ ∨ k ∈ keysOf l₂ := by
  simp [keysOf]

/-- Membership among the keys of a filtered association list. -/
theorem mem_keys_filter {α : Type} (l : List (String × α)) (p : String × α → Bool) (k : String) :
    k ∈ keysOf (l.filter p) ↔ ∃ v, (k, v) ∈ l ∧ p (k, v) = true := by
  constructor
  · intro h
    obtain ⟨⟨k', v⟩, hmem, hk⟩ := List.mem_map.mp h
    subst hk
    obtain ⟨hl, hp⟩ := List.mem_filter.mp hmem
    exact ⟨v, hl, hp⟩
  · intro ⟨v, hl, hp⟩
    exact List.mem_map.mpr ⟨(k, v), List.mem_filter.mpr ⟨hl, hp⟩, rfl⟩

/-- A class's own fields survive the inheritance merge. -/
theorem own_mem_collectFields (L : Lookup) (fuel : Nat) (cm : ClassMeta)
    (x : String × FieldMeta) (h : x ∈ cm.fields) : x ∈ collectFields L fuel cm := by
  cases fuel with
  | zero => exact h
  | succ fuel =>
    cases hp : cm.parent with
    | none => simpa [collectFields, hp] using h
    | some p =>
      cases hL : L p with
      | none => simpa [collectFields, hp, hL] using h
      | some pm =>
        simp only [collectFields, hp, hL]
        exact List.mem_append_right _ h

/-- Every member of a successfully compiled field list compiled. -/
theorem compileFields_ok_mem (L : Lookup) (recur : ClassMeta → Except CompileError CompiledClass)
    (fs : List (String × FieldMeta)) (ds : List (String × FieldDescriptor))
    (hok : compileFields L recur fs = Except.ok ds)
    (x : String × FieldMeta) (hx : x ∈ fs) :
    ∃ d, compileField L recur x.2 = Except.ok d := by
  induction fs generalizing ds with
  | nil => cases hx
  | cons y rest ih =>
    obtain ⟨n, fm⟩ := y
    simp only [compileFields] at hok
    cases hcf : compileField L recur fm with
    | error e => rw [hcf] at hok; cases hok
    | ok d =>
      rw [hcf] at hok
      cases hrest : compileFields L recur rest with
      | error e => rw [hrest] at hok; cases hok
      | ok ds' =>
        rcases List.mem_cons.mp hx with heq | hmem
        · subst heq; exact ⟨d, hcf⟩
        · exact ih ds' hrest hmem

/-- A successfully built class-typed element went through the class
compiler on the looked-up metadata. -/
theorem buildElem_ok_cls (L : Lookup) (recur : ClassMeta → Except CompileError CompiledClass)
    (m : String) (opts : Options) (d : FieldDescriptor)
    (h : buildElem L recur (ResolvedType.cls m) opts = Except.ok d) :
    ∃ mm cc, L m = some mm ∧ recur mm = Except.ok cc := by
  unfold buildElem at h
  split at h
  · rename_i p heq
    exact ResolvedType.noConfusion heq
  · rename_i t k heq
    exact ResolvedType.noConfusion heq
  · rename_i m' heq
    cases heq
    split at h
    · cases h
    · rename_i mm heq1
      split at h
      · cases h
      · rename_i cc heq2
        exact ⟨mm, cc, heq1, heq2⟩

/-- A successfully compiled field whose resolved type is a class ran the
class compiler on that class's metadata. -/
theorem compileField_ok_cls (L : Lookup) (recur : ClassMeta → Except CompileError CompiledClass)
    (fm : FieldMeta) (m : String) (d : FieldDescriptor)
    (hok : compileField L recur fm = Except.ok d)
    (hrt : resolveType fm = Except.ok (ResolvedType.cls m)) :
    ∃ mm cc, L m = some mm ∧ recur mm = Except.ok cc := by
  unfold compileField at hok
  split at hok
  · split at hok
    · rename_i e heq
      rw [hrt] at heq
      cases heq
    · rename_i rt heq
      rw [hrt] at heq
      cases heq
      split at hok
      · exact buildElem_ok_cls L recur m _ d hok
      · split at hok
        · cases hok
        · rename_i elemDesc hbe
          exact buildElem_ok_cls L recur m _ elemDesc hbe
      · split at hok
        · cases hok
        · rename_i elemDesc hbe
          exact buildElem_ok_cls L recur m _ elemDesc hbe
  · cases hok

/-- A class that compiled successfully was not on the visited chain. -/
theorem compileClass_ok_not_visited (L : Lookup) (fuel : Nat) (vis : List String)
    (cm : ClassMeta) (d : CompiledClass)
    (hok : compileClass L fuel vis cm = Except.ok d) : cm.name ∉ vis := by
  cases fuel with
  | zero => cases hok
  | succ fuel =>
    simp only [compileClass] at hok
    by_cases hv : vis.contains cm.name
    · rw [if_pos hv] at hok; cases hok
    · exact fun hmem => hv (List.elem_iff.mpr hmem)

/-- A successful class compilation recursed successfully into every class
nested through one of the class's own fields. -/
theorem compileClass_ok_sub (L : Lookup) (fuel : Nat) (vis : List String)
    (cm : ClassMeta) (d : CompiledClass) (n : String) (fm : FieldMeta) (m : String)
    (hok : compileClass L fuel vis cm = Except.ok d)
    (hf : (n, fm) ∈ cm.fields)
    (hrt : resolveType fm = Except.ok (ResolvedType.cls m)) :
    ∃ fuel' mm cc, fuel = fuel' + 1 ∧ L m = some mm ∧
      compileClass L fuel' (cm.name :: vis) mm = Except.ok cc := by
  cases fuel with
  | zero => cases hok
  | succ fuel =>
    simp only [compileClass] at hok
    by_cases hv : vis.contains cm.name
    · rw [if_pos hv] at hok; cases hok
    · rw [if_neg hv] at hok
      cases hcf : compileFields L (compileClass L fuel (cm.name :: vis)) (collectFields L fuel cm) with
      | error e => rw [hcf] at hok; cases hok
      | ok fds =>
        have hx := compileFields_ok_mem L _ _ fds hcf (n, fm)
          (own_mem_collectFields L fuel cm (n, fm) hf)
        obtain ⟨d', hd'⟩ := hx
        obtain ⟨mm, cc, hL, hrec⟩ := compileField_ok_cls L _ fm m d' hd' hrt
        exact ⟨fuel, mm, cc, rfl, hL, hrec⟩

/-- Along a nested-embedding path out of a class that compiles
successfully, no reachable class is on the visited chain, the start
included. -/
theorem npath_blocks (L : Lookup) (hL : CoherentLookup L) {a b : String}
    (p : NestedPath L a b) :
    ∀ (fuel : Nat) (vis : List String) (cm : ClassMeta) (d : CompiledClass),
      L a = some cm → compileClass L fuel vis cm = Except.ok d →
      b ∉ vis ∧ b ≠ a := by
  induction p with
  | @single a' b' e =>
    intro fuel vis cm d hLa hok
    obtain ⟨cm', n, fm, hLa', hf, hrt⟩ := e
    rw [hLa] at hLa'
    cases hLa'
    obtain ⟨fuel', mm, cc, _, hLm, hsub⟩ :=
      compileClass_ok_sub L fuel vis cm d n fm b' hok hf hrt
    have hname : mm.name = b' := hL b' mm hLm
    have hnv := compileClass_ok_not_visited L fuel' (cm.name :: vis) mm cc hsub
    rw [hname] at hnv
    have hca : cm.name = a' := hL a' cm hLa
    rw [hca] at hnv
    simp only [List.mem_cons, not_or] at hnv
    exact ⟨hnv.2, hnv.1⟩
  | @cons a' m' b' e _ ih =>
    intro fuel vis cm d hLa hok
    obtain ⟨cm', n, fm, hLa', hf, hrt⟩ := e
    rw [hLa] at hLa'
    cases hLa'
    obtain ⟨fuel', mm, cc, _, hLm, hsub⟩ :=
      compileClass_ok_sub L fuel vis cm d n fm m' hok hf hrt
    have hres := ih fuel' (cm.name :: vis) mm cc hLm hsub
    have hca : cm.name = a' := hL a' cm hLa
    rw [hca] at hres
    simp only [List.mem_cons, not_or] at hres
    exact ⟨hres.1.2, hres.1.1⟩

/-- Key membership through an existential binding. -/
theorem mem_keys_iff {α : Type} (l : List (String × α)) (k : String) :
    k ∈ keysOf l ↔ ∃ v, (k, v) ∈ l := by
  constructor
  · intro h
    obtain ⟨⟨k', v⟩, hmem, hk⟩ := List.mem_map.mp h
    subst hk
    exact ⟨v, hmem⟩
  · intro ⟨v, hmem⟩
    exact List.mem_map.mpr ⟨(k, v), hmem, rfl⟩

/-- Characterization of the keys surviving into the automatic split. -/
theorem mem_keys_autoBase (raw : Options) (k : String) :
    k ∈ keysOf (autoBase raw) ↔
      (∃ v, (k, v) ∈ raw) ∧ k ∉ consumedArrayKeys
      ∧ k ∉ keysOf (explicitMap raw "outerOptions")
      ∧ k ∉ keysOf (explicitMap raw "innerOptions") := by
  unfold autoBase
  rw [mem_keys_filter]
  constructor
  · rintro ⟨v, hv, hp⟩
    simp only [Bool.and_eq_true, decide_eq_true_eq] at hp
    exact ⟨⟨v, hv⟩, hp.1.1, hp.1.2, hp.2⟩
  · rintro ⟨⟨v, hv⟩, h1, h2, h3⟩
    refine ⟨v, hv, ?_⟩
    simp only [Bool.and_eq_true, decide_eq_true_eq]
    exact ⟨⟨h1, h2⟩, h3⟩

/-! ## Claim theorems -/

/-- C1: for every annotated field, `resolveType` tries, in order and
stopping at the first match, the explicit type option (`type`, or `items`
for arrays and `of` for maps), ref-style resolution, the ambient declared
type observed by reflection, and inference from a literal default value;
when every step yields nothing it fails with `UnresolvedTypeError` and the
field compiler returns no descriptor. -/
theorem resolveType_priority_spec (fm : FieldMeta) :
    (∀ t, explicitType fm = some t → resolveType fm = Except.ok t)
    ∧ (explicitType fm = none → ∀ r, refResolve fm = some r →
        resolveType fm = Except.ok r)
    ∧ (explicitType fm = none → refResolve fm = none →
        ∀ t, declaredType fm = some t → resolveType fm = Except.ok t)
    ∧ (explicitType fm = none → refResolve fm = none → declaredType fm = none →
        ∀ t, inferDefault fm.rawOptions = some t → resolveType fm = Except.ok t)
    ∧ (explicitType fm = none → refResolve fm = none → declaredType fm = none →
        inferDefault fm.rawOptions = none →
        resolveType fm = Except.error CompileError.unresolvedType
        ∧ ∀ (L : Lookup) (recur : ClassMeta → Except CompileError CompiledClass)
            (d : FieldDescriptor), compileField L recur fm ≠ Except.ok d) := by
  refine ⟨?_, ?_, ?_, ?_, ?_⟩
  · intro t h
    simp [resolveType, h]
  · intro h1 r h2
    simp [resolveType, h1, h2]
  · intro h1 h2 t h3
    simp [resolveType, h1, h2, h3]
  · intro h1 h2 h3 t h4
    simp [resolveType, h1, h2, h3, h4]
  · intro h1 h2 h3 h4
    have hres : resolveType fm = Except.error CompileError.unresolvedType := by
      simp [resolveType, h1, h2, h3, h4]
    refine ⟨hres, ?_⟩
    intro L recur d hok
    unfold compileField at hok
    split at hok
    · split at hok
      · cases hok
      · rename_i rt heq
        rw [hres] at heq
        cases heq
    · cases hok

/-- Witness for C1: a field with no type option, no ref, no observed
declared type and no default fails with `UnresolvedTypeError`, while a
literal string default resolves to the string type. -/
theorem resolveType_priority_spec_witness :
    resolveType ⟨PropKind.plain, [], none⟩ = Except.error CompileError.unresolvedType
    ∧ resolveType ⟨PropKind.plain, [("default", Value.vstr "hi")], none⟩
        = Except.ok (ResolvedType.prim PrimType.pstring) :=
  ⟨((resolveType_priority_spec ⟨PropKind.plain, [], none⟩).2.2.2.2 rfl rfl rfl rfl).1,
   (resolveType_priority_spec ⟨PropKind.plain, [("default", Value.vstr "hi")], none⟩).2.2.2.1
     rfl rfl rfl _ rfl⟩

/-- C3: compiling the same class metadata twice yields structurally equal
compiled descriptors (`compileClass` is a pure function of its inputs). -/
theorem compileClass_idempotent (L : Lookup) (fuel : Nat) (visited : List String)
    (cm : ClassMeta) :
    compileClass L fuel visited cm = compileClass L fuel visited cm := rfl

/-- C4: the Person/Address scenario compiles to exactly the three expected
top-level descriptors (`name` Scalar/string, `address` Nested over
{street}, `moreAddresses` Array of that Nested shape), and the document
{name: "A", address: {street: "X"}, moreAddresses: []} round-trips through
the driver sink unchanged. -/
theorem person_end_to_end :
    compileClass fixtureLookup 10 [] personMeta = Except.ok personDescriptor
    ∧ createDoc 10 personDescriptor personDoc = some personDoc :=
  ⟨rfl, rfl⟩

/-- C8: a `get` transform without a `set` (or a `set` without a `get`)
makes `compileField` signal the asymmetric-transform error rather than
produce a descriptor; with both present the pair is wired into the scalar
descriptor's transform flag. -/
theorem transform_pair_spec :
    (∀ (L : Lookup) (recur : ClassMeta → Except CompileError CompiledClass)
        (fm : FieldMeta),
      ¬(hasKey fm.rawOptions "get" = hasKey fm.rawOptions "set") →
      compileField L recur fm = Except.error CompileError.asymmetricTransform)
    ∧ (∀ (L : Lookup) (recur : ClassMeta → Except CompileError CompiledClass)
        (fm : FieldMeta) (p : PrimType),
      hasKey fm.rawOptions "get" = true → hasKey fm.rawOptions "set" = true →
      fm.kind = PropKind.plain →
      resolveType fm = Except.ok (ResolvedType.prim p) →
      compileField L recur fm
        = Except.ok (FieldDescriptor.scalar (mkScalar p fm.rawOptions))
      ∧ (mkScalar p fm.rawOptions).hasTransform = true) := by
  constructor
  · intro L recur fm h
    unfold compileField
    rw [if_neg h]
  · intro L recur fm p hg hs hk hrt
    constructor
    · unfold compileField
      rw [if_pos (hg.trans hs.symm), hrt, hk]
      rfl
    · simp [mkScalar, hg, hs]

/-- Witness for C8: a get-only field errors, a get/set field compiles with
the transform wired. -/
theorem transform_pair_spec_witness :
    compileField (fun _ => none) (fun _ => Except.error CompileError.invalidOptions)
      ⟨PropKind.plain, [("get", Value.vfun 0)], none⟩
      = Except.error CompileError.asymmetricTransform
    ∧ compileField (fun _ => none) (fun _ => Except.error CompileError.invalidOptions)
      ⟨PropKind.plain,
       [("get", Value.vfun 0), ("set", Value.vfun 1),
        ("type", Value.vtype (TypeRef.prim PrimType.pstring))], none⟩
      = Except.ok (FieldDescriptor.scalar (mkScalar PrimType.pstring
          [("get", Value.vfun 0), ("set", Value.vfun 1),
           ("type", Value.vtype (TypeRef.prim PrimType.pstring))])) :=
  ⟨transform_pair_spec.1 (fun _ => none) (fun _ => Except.error CompileError.invalidOptions)
     ⟨PropKind.plain, [("get", Value.vfun 0)], none⟩ (by decide),
   (transform_pair_spec.2 (fun _ => none) (fun _ => Except.error CompileError.invalidOptions)
     ⟨PropKind.plain,
      [("get", Value.vfun 0), ("set", Value.vfun 1),
       ("type", Value.vtype (TypeRef.prim PrimType.pstring))], none⟩
     PrimType.pstring rfl rfl rfl rfl).1⟩

/-- C10: a reference-style field compiled without an explicit
`refType`/`itemsRefType` option resolves to a Reference with key type
ObjectId; the alternative key types arise only from an explicit request. -/
theorem ref_keytype_default_spec :
    (∀ (opts : Options) (decl : Option TypeRef) (tgt : String),
      getOpt opts "type" = none →
      refTarget (getOpt opts "ref") = some tgt →
      getOpt opts "refType" = none →
      resolveType ⟨PropKind.plain, opts, decl⟩
        = Except.ok (ResolvedType.reference tgt RefKeyType.objectId))
    ∧ (∀ (opts : Options) (decl : Option TypeRef) (tgt : String),
      getOpt opts "items" = none →
      refTarget (getOpt opts "itemsRef") = some tgt →
      getOpt opts "itemsRefType" = none →
      resolveType ⟨PropKind.array, opts, decl⟩
        = Except.ok (ResolvedType.reference tgt RefKeyType.objectId))
    ∧ refKeyOf (some (Value.vtype (TypeRef.prim PrimType.pnumber))) = RefKeyType.keyNumber
    ∧ refKeyOf (some (Value.vtype (TypeRef.prim PrimType.pstring))) = RefKeyType.keyString
    ∧ refKeyOf (some (Value.vtype (TypeRef.prim PrimType.pbuffer))) = RefKeyType.keyBuffer := by
  refine ⟨?_, ?_, rfl, rfl, rfl⟩
  · intro opts decl tgt h1 h2 h3
    simp [resolveType, explicitType, refResolve, h1, h2, h3, refKeyOf]
  · intro opts decl tgt h1 h2 h3
    simp [resolveType, explicitType, refResolve, h1, h2, h3, refKeyOf]

/-- Witness for C10: concrete ref fields without a key-type option resolve
to ObjectId-keyed references. -/
theorem ref_keytype_default_spec_witness :
    resolveType ⟨PropKind.plain, [("ref", Value.vtype (TypeRef.cls "Target"))], none⟩
      = Except.ok (ResolvedType.reference "Target" RefKeyType.objectId)
    ∧ resolveType ⟨PropKind.array, [("itemsRef", Value.vstr "Other")], none⟩
      = Except.ok (ResolvedType.reference "Other" RefKeyType.objectId) :=
  ⟨ref_keytype_default_spec.1 _ none "Target" rfl rfl rfl,
   ref_keytype_default_spec.2.1 _ none "Other" rfl rfl rfl⟩

/-- C5: a field compiled with an `enum` option carries a validator set, and
the runtime enum validator accepts exactly the members of the enumerated
set, rejecting every other value (null included); a mapping-style enum is
validated against the set of its values, not its keys. -/
theorem enum_validator_spec :
    (∀ (L : Lookup) (recur : ClassMeta → Except CompileError CompiledClass)
        (fm : FieldMeta) (p : PrimType) (e : Value),
      hasKey fm.rawOptions "get" = hasKey fm.rawOptions "set" →
      fm.kind = PropKind.plain →
      resolveType fm = Except.ok (ResolvedType.prim p) →
      getOpt fm.rawOptions "enum" = some e →
      compileField L recur fm
        = Except.ok (FieldDescriptor.scalar (mkScalar p fm.rawOptions))
      ∧ (mkScalar p fm.rawOptions).enumSet = some (enumValsOf e))
    ∧ (∀ (allowed : List String) (v : Value),
      enumValidate allowed v = true ↔ ∃ s, v = Value.vstr s ∧ s ∈ allowed)
    ∧ (∀ allowed : List String, enumValidate allowed Value.vnull = false)
    ∧ (∀ (m : List (String × Value)) (s : String),
      s ∈ enumValsOf (Value.vmap m) ↔ ∃ k, (k, Value.vstr s) ∈ m) := by
  refine ⟨?_, ?_, fun _ => rfl, ?_⟩
  · intro L recur fm p e hgs hk hrt henum
    constructor
    · unfold compileField
      rw [if_pos hgs, hrt, hk]
      rfl
    · simp [mkScalar, enumSetOf, henum]
  · intro allowed v
    cases v with
    | vstr s =>
      simp only [enumValidate]
      constructor
      · intro h
        exact ⟨s, rfl, List.elem_iff.mp h⟩
      · rintro ⟨s', hs, hmem⟩
        cases hs
        exact List.elem_iff.mpr hmem
    | vnull => simp [enumValidate]
    | vbool b => simp [enumValidate]
    | vnum n => simp [enumValidate]
    | varr xs => simp [enumValidate]
    | vmap m => simp [enumValidate]
    | vtype t => simp [enumValidate]
    | vfun tag => simp [enumValidate]
  · intro m s
    simp only [enumValsOf, List.mem_filterMap]
    constructor
    · rintro ⟨⟨k, v⟩, hmem, hf⟩
      cases v <;> cases hf
      exact ⟨k, hmem⟩
    · rintro ⟨k, hmem⟩
      exact ⟨(k, Value.vstr s), hmem, rfl⟩

/-- Witness for C5: over the set {"a","b","c"} the validator accepts "a"
and rejects "d" and null; a plain field with a list-style enum compiles
with the validator set wired. -/
theorem enum_validator_spec_witness :
    enumValidate ["a", "b", "c"] (Value.vstr "a") = true
    ∧ enumValidate ["a", "b", "c"] (Value.vstr "d") = false
    ∧ enumValidate ["a", "b", "c"] Value.vnull = false
    ∧ (mkScalar PrimType.pstring
        [("type", Value.vtype (TypeRef.prim PrimType.pstring)),
         ("enum", Value.varr [Value.vstr "a", Value.vstr "b", Value.vstr "c"])]).enumSet
      = some ["a", "b", "c"] := by
  refine ⟨?_, ?_, ?_, ?_⟩
  · exact (enum_validator_spec.2.1 ["a", "b", "c"] (Value.vstr "a")).mpr
      ⟨"a", rfl, by simp⟩
  · cases hcase : enumValidate ["a", "b", "c"] (Value.vstr "d") with
    | false => rfl
    | true =>
      obtain ⟨s, hs, hm⟩ :=
        (enum_validator_spec.2.1 ["a", "b", "c"] (Value.vstr "d")).mp hcase
      cases hs
      simp at hm
  · exact enum_validator_spec.2.2.1 ["a", "b", "c"]
  · exact (enum_validator_spec.1 (fun _ => none)
      (fun _ => Except.error CompileError.invalidOptions)
      ⟨PropKind.plain,
       [("type", Value.vtype (TypeRef.prim PrimType.pstring)),
        ("enum", Value.varr [Value.vstr "a", Value.vstr "b", Value.vstr "c"])], none⟩
      PrimType.pstring (Value.varr [Value.vstr "a", Value.vstr "b", Value.vstr "c"])
      rfl rfl rfl rfl).2

/-- C9: requesting a handle again for the same (class, collection,
connection) triple returns the existing handle with the registry unchanged
(no second driver registration); a second registration happens exactly for
a distinct, not-yet-registered key. -/
theorem buildHandle_idempotent :
    ∀ (reg : Registry) (c : String) (col : Option String) (conn : String)
      (r1 : Registry) (h1 : Nat),
      buildHandle reg c col conn = (r1, h1) →
      buildHandle r1 c col conn = (r1, h1)
      ∧ (∀ (c' : String) (col' : Option String) (conn' : String),
          handleKey c' col' conn' ≠ handleKey c col conn →
          findEntry r1.entries (handleKey c' col' conn') = none →
          (buildHandle r1 c' col' conn').1.regCount = r1.regCount + 1) := by
  intro reg c col conn r1 h1 hb
  have hfresh : ∀ (r : Registry) (c' : String) (col' : Option String) (conn' : String),
      findEntry r.entries (handleKey c' col' conn') = none →
      (buildHandle r c' col' conn').1.regCount = r.regCount + 1 := by
    intro r c' col' conn' hnone
    unfold buildHandle
    rw [hnone]
  refine ⟨?_, fun c' col' conn' _ hnone => hfresh r1 c' col' conn' hnone⟩
  unfold buildHandle at hb ⊢
  cases hfind : findEntry reg.entries (handleKey c col conn) with
  | some h =>
    rw [hfind] at hb
    cases hb
    rw [hfind]
  | none =>
    rw [hfind] at hb
    cases hb
    simp [findEntry]

/-- Witness for C9: on an empty registry, the second identical request
returns the first handle unchanged, and a distinct collection name incurs
one more registration. -/
theorem buildHandle_idempotent_witness :
    buildHandle (buildHandle ⟨[], 0, 0⟩ "Person" none "conn").1 "Person" none "conn"
      = ((buildHandle ⟨[], 0, 0⟩ "Person" none "conn").1,
         (buildHandle ⟨[], 0, 0⟩ "Person" none "conn").2)
    ∧ (buildHandle (buildHandle ⟨[], 0, 0⟩ "Person" none "conn").1
        "Person" (some "people") "conn").1.regCount
      = (buildHandle ⟨[], 0, 0⟩ "Person" none "conn").1.regCount + 1 := by
  have h := buildHandle_idempotent ⟨[], 0, 0⟩ "Person" none "conn"
    (buildHandle ⟨[], 0, 0⟩ "Person" none "conn").1
    (buildHandle ⟨[], 0, 0⟩ "Person" none "conn").2 rfl
  exact ⟨h.1, h.2 "Person" (some "people") "conn" (by decide) rfl⟩

/-- C2: the array option split places every raw option key (outside the
keys consumed by type resolution and the escape hatches themselves) in
exactly one of the outer/inner sets — unknown keys defaulting to outer,
none dropped — and an explicit `outerOptions`/`innerOptions` override
always wins, its value included. -/
theorem normalizeArray_split_spec :
    (∀ (raw : Options) (k : String),
      k ∈ keysOf raw →
      k ∉ consumedArrayKeys →
      (∀ k', ¬(k' ∈ keysOf (explicitMap raw "outerOptions")
               ∧ k' ∈ keysOf (explicitMap raw "innerOptions"))) →
      (k ∈ keysOf (normalizeArray raw).outer ∧ k ∉ keysOf (normalizeArray raw).inner)
      ∨ (k ∈ keysOf (normalizeArray raw).inner ∧ k ∉ keysOf (normalizeArray raw).outer))
    ∧ (∀ (raw : Options) (k : String),
      k ∈ keysOf (explicitMap raw "innerOptions") →
      getOpt (normalizeArray raw).inner k = getOpt (explicitMap raw "innerOptions") k)
    ∧ (∀ (raw : Options) (k : String),
      k ∈ keysOf (explicitMap raw "outerOptions") →
      getOpt (normalizeArray raw).outer k = getOpt (explicitMap raw "outerOptions") k) := by
  have hbase_not_eo : ∀ (raw : Options) (k : String),
      k ∈ keysOf (explicitMap raw "outerOptions") →
      ∀ p, k ∉ keysOf ((autoBase raw).filter p) := by
    intro raw k hk p hmem
    rw [mem_keys_filter] at hmem
    obtain ⟨v, hvb, _⟩ := hmem
    exact ((mem_keys_autoBase raw k).mp ((mem_keys_iff _ k).mpr ⟨v, hvb⟩)).2.2.1 hk
  have hbase_not_ei : ∀ (raw : Options) (k : String),
      k ∈ keysOf (explicitMap raw "innerOptions") →
      ∀ p, k ∉ keysOf ((autoBase raw).filter p) := by
    intro raw k hk p hmem
    rw [mem_keys_filter] at hmem
    obtain ⟨v, hvb, _⟩ := hmem
    exact ((mem_keys_autoBase raw k).mp ((mem_keys_iff _ k).mpr ⟨v, hvb⟩)).2.2.2 hk
  refine ⟨?_, ?_, ?_⟩
  · intro raw k hk hcons hdisj
    simp only [normalizeArray]
    by_cases hei : k ∈ keysOf (explicitMap raw "innerOptions")
    · right
      refine ⟨(mem_keys_append _ _ k).mpr (Or.inr hei), ?_⟩
      intro hout
      rcases (mem_keys_append _ _ k).mp hout with hbase | heo
      · exact hbase_not_ei raw k hei _ hbase
      · exact hdisj k ⟨heo, hei⟩
    · by_cases heo : k ∈ keysOf (explicitMap raw "outerOptions")
      · left
        refine ⟨(mem_keys_append _ _ k).mpr (Or.inr heo), ?_⟩
        intro hin
        rcases (mem_keys_append _ _ k).mp hin with hbase | hei2
        · exact hbase_not_eo raw k heo _ hbase
        · exact hei hei2
      · obtain ⟨v, hv⟩ := (mem_keys_iff raw k).mp hk
        have hvbase : (k, v) ∈ autoBase raw := by
          unfold autoBase
          refine List.mem_filter.mpr ⟨hv, ?_⟩
          simp only [Bool.and_eq_true, decide_eq_true_eq]
          exact ⟨⟨hcons, heo⟩, hei⟩
        by_cases hcls : k ∈ arrayInnerKeys
        · right
          constructor
          · refine (mem_keys_append _ _ k).mpr (Or.inl ?_)
            rw [mem_keys_filter]
            exact ⟨v, hvbase, by simp [hcls]⟩
          · intro hout
            rcases (mem_keys_append _ _ k).mp hout with hbase | heo2
            · rw [mem_keys_filter] at hbase
              obtain ⟨v', _, hp⟩ := hbase
              simp only [decide_eq_true_eq] at hp
              exact hp hcls
            · exact heo heo2
        · left
          constructor
          · refine (mem_keys_append _ _ k).mpr (Or.inl ?_)
            rw [mem_keys_filter]
            exact ⟨v, hvbase, by simp [hcls]⟩
          · intro hin
            rcases (mem_keys_append _ _ k).mp hin with hbase | hei2
            · rw [mem_keys_filter] at hbase
              obtain ⟨v', _, hp⟩ := hbase
              simp only [decide_eq_true_eq] at hp
              exact hcls hp
            · exact hei hei2
  · intro raw k hkei
    exact getOpt_append_of_not_mem _ _ k (hbase_not_ei raw k hkei _)
  · intro raw k hkeo
    exact getOpt_append_of_not_mem _ _ k (hbase_not_eo raw k hkeo _)

/-- Witness for C2: on a concrete raw option list carrying a known outer
key, a known inner key, an unknown key and an innerOptions override, each
key lands on exactly one side and the override value wins. -/
theorem normalizeArray_split_spec_witness :
    (("required" : String) ∈ keysOf (normalizeArray
        [("required", Value.vbool true), ("enum", Value.varr []),
         ("mystery", Value.vnum 7),
         ("innerOptions", Value.vmap [("required", Value.vbool false)])]).outer
      ∨ ("required" : String) ∈ keysOf (normalizeArray
        [("required", Value.vbool true), ("enum", Value.varr []),
         ("mystery", Value.vnum 7),
         ("innerOptions", Value.vmap [("required", Value.vbool false)])]).inner)
    ∧ getOpt (normalizeArray
        [("required", Value.vbool true), ("enum", Value.varr []),
         ("mystery", Value.vnum 7),
         ("innerOptions", Value.vmap [("required", Value.vbool false)])]).inner "required"
      = some (Value.vbool false) := by
  have hpart := normalizeArray_split_spec.1
    [("required", Value.vbool true), ("enum", Value.varr []),
     ("mystery", Value.vnum 7),
     ("innerOptions", Value.vmap [("required", Value.vbool false)])]
    "required" (by simp [keysOf]) (by decide)
    (by intro k'; simp [explicitMap, getOpt, keysOf])
  have hwin := normalizeArray_split_spec.2.1
    [("required", Value.vbool true), ("enum", Value.varr []),
     ("mystery", Value.vnum 7),
     ("innerOptions", Value.vmap [("required", Value.vbool false)])]
    "required" (by simp [explicitMap, getOpt, keysOf])
  refine ⟨?_, ?_⟩
  · rcases hpart with ⟨h, _⟩ | ⟨h, _⟩
    · exact Or.inl h
    · exact Or.inr h
  · rw [hwin]
    rfl

/-- C6: a map-valued field whose `of` names a nested class with two
annotated fields compiles to a Map descriptor whose element descriptor is a
Nested descriptor holding exactly those two fields in declaration order. -/
theorem map_of_nested_spec
    (L : Lookup) (fuel : Nat) (vis : List String) (opts : Options) (decl : Option TypeRef)
    (nName : String) (meta : ClassMeta) (a b : String) (fa fb : FieldMeta)
    (da db : FieldDescriptor)
    (hL : L nName = some meta)
    (hparent : meta.parent = none)
    (hfields : meta.fields = [(a, fa), (b, fb)])
    (hvis : vis.contains meta.name = false)
    (hga : compileField L (compileClass L fuel (meta.name :: vis)) fa = Except.ok da)
    (hgb : compileField L (compileClass L fuel (meta.name :: vis)) fb = Except.ok db)
    (hof : getOpt opts "of" = some (Value.vtype (TypeRef.cls nName)))
    (hgs : hasKey opts "get" = hasKey opts "set") :
    compileField L (compileClass L (fuel + 1) vis) ⟨PropKind.map, opts, decl⟩
      = Except.ok (FieldDescriptor.map (FieldDescriptor.nested [(a, da), (b, db)])
          (normalizeMap opts).outer) := by
  have hrt : resolveType ⟨PropKind.map, opts, decl⟩ = Except.ok (ResolvedType.cls nName) := by
    simp [resolveType, explicitType, hof, valueToType]
  have hcollect : collectFields L fuel meta = [(a, fa), (b, fb)] := by
    cases fuel with
    | zero => simpa [collectFields] using hfields
    | succ f => simp [collectFields, hparent, hfields]
  have hvm : meta.name ∉ vis := fun hm =>
    Bool.noConfusion ((List.elem_iff.mpr hm).symm.trans hvis)
  have hcc : compileClass L (fuel + 1) vis meta
      = Except.ok ⟨meta.name, [(a, da), (b, db)], meta.classOptions⟩ := by
    simp [compileClass, hvm, hcollect, compileFields, hga, hgb]
  unfold compileField
  rw [if_pos hgs, hrt]
  simp [buildElem, hL, hcc]

/-- Witness for C6: the `sideNotes` shape of the InternetUser fixture — a
map of the two-field `SideNote` class — compiles to Map over Nested with
`content` and `link` in declaration order. -/
theorem map_of_nested_spec_witness :
    compileField fixtureLookup (compileClass fixtureLookup 4 [])
      ⟨PropKind.map, [("of", Value.vtype (TypeRef.cls "SideNote"))], none⟩
      = Except.ok (FieldDescriptor.map
          (FieldDescriptor.nested
            [("content", FieldDescriptor.scalar ⟨PrimType.pstring, false, none, false⟩),
             ("link", FieldDescriptor.scalar ⟨PrimType.pstring, false, none, false⟩)])
          (normalizeMap [("of", Value.vtype (TypeRef.cls "SideNote"))]).outer) :=
  map_of_nested_spec fixtureLookup 3 [] [("of", Value.vtype (TypeRef.cls "SideNote"))]
    none "SideNote" sideNoteMeta "content" "link"
    ⟨PropKind.plain, [], some (TypeRef.prim PrimType.pstring)⟩
    ⟨PropKind.plain, [], some (TypeRef.prim PrimType.pstring)⟩
    (FieldDescriptor.scalar ⟨PrimType.pstring, false, none, false⟩)
    (FieldDescriptor.scalar ⟨PrimType.pstring, false, none, false⟩)
    rfl rfl rfl rfl rfl rfl rfl rfl

/-- C7: a class that transitively embeds itself as a nested (non-reference)
document never compiles to a descriptor, and in the direct self-nesting
case the failure is precisely `CyclicNestingError`. -/
theorem cyclic_nesting_spec :
    (∀ (L : Lookup) (c : String) (cm : ClassMeta),
      CoherentLookup L → L c = some cm → NestedPath L c c →
      ∀ (fuel : Nat) (d : CompiledClass), compileClass L fuel [] cm ≠ Except.ok d)
    ∧ (∀ (L : Lookup) (c : String) (cm : ClassMeta) (n : String) (fm : FieldMeta) (fuel : Nat),
      L c = some cm → cm.name = c → cm.parent = none → cm.fields = [(n, fm)] →
      hasKey fm.rawOptions "get" = hasKey fm.rawOptions "set" →
      resolveType fm = Except.ok (ResolvedType.cls c) →
      compileClass L (fuel + 2) [] cm = Except.error CompileError.cyclicNesting) := by
  constructor
  · intro L c cm hcoh hLc hpath fuel d hok
    exact (npath_blocks L hcoh hpath fuel [] cm d hLc hok).2 rfl
  · intro L c cm n fm fuel hLc hname hparent hfields hgs hrt
    have hsub : compileClass L (fuel + 1) (cm.name :: [])  cm
        = Except.error CompileError.cyclicNesting := by
      simp [compileClass]
    have hbe : ∀ opts', buildElem L (compileClass L (fuel + 1) (cm.name :: []))
        (ResolvedType.cls c) opts' = Except.error CompileError.cyclicNesting := by
      intro opts'
      simp [buildElem, hLc, hsub]
    have hcf : compileField L (compileClass L (fuel + 1) (cm.name :: [])) fm
        = Except.error CompileError.cyclicNesting := by
      unfold compileField
      rw [if_pos hgs, hrt]
      cases fm.kind <;> simp [hbe]
    have hcollect : collectFields L (fuel + 1) cm = [(n, fm)] := by
      simp [collectFields, hparent, hfields]
    have hcFields : compileFields L (compileClass L (fuel + 1) (cm.name :: []))
        (collectFields L (fuel + 1) cm) = Except.error CompileError.cyclicNesting := by
      rw [hcollect]
      simp [compileFields, hcf]
    have hstep : compileClass L (fuel + 2) [] cm
        = match compileFields L (compileClass L (fuel + 1) (cm.name :: []))
            (collectFields L (fuel + 1) cm) with
          | Except.error e => Except.error e
          | Except.ok fds => Except.ok ⟨cm.name, fds, cm.classOptions⟩ := rfl
    rw [hstep, hcFields]

/-- Witness for C7: the concrete directly self-nesting class fails with
`CyclicNestingError` and never yields a descriptor. -/
theorem cyclic_nesting_spec_witness :
    compileClass selfNestLookup 5 [] selfNestMeta = Except.error CompileError.cyclicNesting
    ∧ ∀ d, compileClass selfNestLookup 7 [] selfNestMeta ≠ Except.ok d := by
  constructor
  · exact cyclic_nesting_spec.2 selfNestLookup "Selfish" selfNestMeta "me"
      ⟨PropKind.plain, [], some (TypeRef.cls "Selfish")⟩ 3 rfl rfl rfl rfl rfl rfl
  · intro d
    have hcoh : CoherentLookup selfNestLookup := by
      intro n cmx h
      unfold selfNestLookup at h
      by_cases hn : n = "Selfish"
      · rw [if_pos hn] at h
        cases h
        rw [hn]
        rfl
      · rw [if_neg hn] at h
        cases h
    have hpath : NestedPath selfNestLookup "Selfish" "Selfish" :=
      NestedPath.single
        ⟨selfNestMeta, "me", ⟨PropKind.plain, [], some (TypeRef.cls "Selfish")⟩,
         rfl, by simp [selfNestMeta], rfl⟩
    exact cyclic_nesting_spec.1 selfNestLookup "Selfish" selfNestMeta hcoh rfl hpath 7 d

end Typegoose
